import Mathlib

/-!
Verification of the real-time streaming core of the `kit` repository.

This development gives a shallow embedding, in Lean, of the parts of the
code that the specification talks about:

* the tool-call dispatcher `onToolCall` of `src/App.tsx` (the switch over
  tool names, the per-call logging, the collection of function responses
  and the single `sendToolResponse` call),
* the embedded `handleSendEmail` tool handler with its internal error
  containment,
* the `connect` guard of the `useLiveApi` hook,
* the `interrupted → audioStreamer.stop()` wiring (the `AudioStreamer`
  class itself is not part of the excerpted sources and is modelled from
  the specification where noted),
* the microphone mute gating of `VoiceCall.tsx`,
* the camera frame-streaming effect of the extended `VoiceCall` variant,
* the `useTools` store operations (`addTool`, `updateTool`, `toggleTool`,
  `removeTool`) and the `getSystemPrompt` builder of `src/lib/state.ts`.

Effectful code (event emission, store writes, network calls) is embedded
as pure state-passing functions; the results of tool handlers that only
wrap HTTP requests are supplied by an environment record.
-/

namespace Kit

/-! ## Tool-call dispatcher (src/App.tsx, onToolCall and handleSendEmail) -/

/-- JS truthiness for an optional string argument: an absent field and the
empty string are both falsy (the source tests `!recipient` etc.). -/
def jsTruthy : Option String → Bool
  | none => false
  | some s => !s.isEmpty

/-- Argument bag of a tool call. In the source this is an untyped
key/value object; the fields consumed by the embedded `send_email`
handler are explicit, everything else is an uninterpreted payload that
the handler oracles of `HandlerEnv` may inspect. -/
structure Args where
  recipient : Option String := none
  subject : Option String := none
  body : Option String := none
  rest : String := ""
deriving Repr, DecidableEq

/-- Authorization snapshot that `onToolCall` reads from the auth store:
`isGoogleConnected = !!session?.provider_token` and the provider token. -/
structure AuthCtx where
  isGoogleConnected : Bool
  accessToken : Option String
deriving Repr, DecidableEq

/-- Outcome of the Gmail send request performed by `handleSendEmail`.
`reject msg` models the `fetch`/`json()` promise rejecting with an error
whose message is `msg` (caught by the try/catch of the handler); `resp ok err`
models a parsed JSON response with HTTP ok-flag `ok` and error-message
field `err` (read only when `ok` is false). -/
inductive FetchOutcome where
  | reject (msg : String)
  | resp (ok : Bool) (errMsg : String)
deriving Repr, DecidableEq

/-- Embedding of `handleSendEmail` (src/App.tsx lines 165-219): auth
check, argument check, then the Gmail API call whose outcome `net` is
supplied by the environment.  Every branch, including both failure
branches of the network call, returns a descriptive text; no failure
escapes the handler. -/
def handleSendEmail (args : Args) (auth : AuthCtx) (net : FetchOutcome) : String :=
  if !(auth.isGoogleConnected && jsTruthy auth.accessToken) then
    "User is not connected to Google. Please ask them to sign in with their Google account."
  else if !(jsTruthy args.recipient && jsTruthy args.subject && jsTruthy args.body) then
    "Missing required parameters for sending an email. I need a recipient, a subject, and a body."
  else
    match net with
    | FetchOutcome.reject msg => "An error occurred while sending the email: " ++ msg
    | FetchOutcome.resp ok errMsg =>
        if ok then "Email sent successfully."
        else "Failed to send email: " ++ errMsg

/-- Environment of the dispatcher: the auth snapshot, the network outcome
seen by the embedded `send_email` handler, and the awaited results of the
remaining handlers, which are plain HTTP/store wrappers that always
resolve to a text result. -/
structure HandlerEnv where
  auth : AuthCtx
  sendEmailNet : Args → FetchOutcome
  readEmails : Args → String
  saveMemory : Args → String
  sendWhatsAppMessage : Args → String
  readWhatsAppChatHistory : Args → String
  searchWhatsAppContact : Args → String
  listDriveFiles : Args → String
  readSheetData : Args → String
  listCalendarEvents : Args → String
  createCalendarEvent : Args → String

/-- The tool names that have a case in the dispatch switch of
`onToolCall`; any other name falls through to the default branch. -/
def registeredToolNames : List String :=
  ["send_email", "read_emails", "save_memory", "send_whatsapp_message",
   "read_whatsapp_chat_history", "search_whatsapp_contact",
   "list_drive_files", "read_sheet_data", "list_calendar_events",
   "create_calendar_event"]

/-- The switch statement of `onToolCall` (src/App.tsx lines 570-621):
routes a call to its handler by name; an unmatched name resolves to the
default result string. -/
def dispatch (env : HandlerEnv) (name : String) (args : Args) : String :=
  if name = "send_email" then handleSendEmail args env.auth (env.sendEmailNet args)
  else if name = "read_emails" then env.readEmails args
  else if name = "save_memory" then env.saveMemory args
  else if name = "send_whatsapp_message" then env.sendWhatsAppMessage args
  else if name = "read_whatsapp_chat_history" then env.readWhatsAppChatHistory args
  else if name = "search_whatsapp_contact" then env.searchWhatsAppContact args
  else if name = "list_drive_files" then env.listDriveFiles args
  else if name = "read_sheet_data" then env.readSheetData args
  else if name = "list_calendar_events" then env.listCalendarEvents args
  else if name = "create_calendar_event" then env.createCalendarEvent args
  else "ok"

/-- One element of a `toolCall.functionCalls` batch. -/
structure FunctionCall where
  id : String
  name : String
  args : Args
deriving Repr, DecidableEq

/-- One element of the `functionResponses` batch; the source stores the
text under `response.result`, flattened here to `result`. -/
structure FunctionResponse where
  id : String
  name : String
  result : String
deriving Repr, DecidableEq

/-- Externally observable effects of the dispatcher, in emission order:
the per-call trigger log line, the batch response log line, and the
single `client.sendToolResponse` call.  The markdown/JSON formatting of
the log text is abstracted to the logged tool name. -/
inductive Effect where
  | logTrigger (name : String)
  | logResponse
  | send (batch : List FunctionResponse)
deriving Repr, DecidableEq

/-- The `for (const fc of toolCall.functionCalls)` loop of `onToolCall`:
logs each trigger, awaits the routed handler, and accumulates the
response entry carrying the id and name of the call. -/
def onToolCallLoop (env : HandlerEnv) : List FunctionCall → List Effect × List FunctionResponse
  | [] => ([], [])
  | fc :: rest =>
      let result := dispatch env fc.name fc.args
      let tail := onToolCallLoop env rest
      (Effect.logTrigger fc.name :: tail.1,
       { id := fc.id, name := fc.name, result := result } :: tail.2)

/-- Embedding of `onToolCall` (src/App.tsx lines 550-647): runs the loop
over the batch, then logs the collected responses when the batch was
non-empty, then issues exactly one `sendToolResponse` with the full
response list. -/
def onToolCall (env : HandlerEnv) (functionCalls : List FunctionCall) :
    List Effect × List FunctionResponse :=
  let loop := onToolCallLoop env functionCalls
  let logEffects := if loop.2.isEmpty then [] else [Effect.logResponse]
  (loop.1 ++ logEffects ++ [Effect.send loop.2], loop.2)

/-- Recognizer for the transport-submission effect. -/
def Effect.isSend : Effect → Bool
  | Effect.send _ => true
  | _ => false

/-- A concrete dispatcher environment used to instantiate theorems with
hypotheses on closed inputs. -/
def sampleEnv : HandlerEnv where
  auth := { isGoogleConnected := false, accessToken := none }
  sendEmailNet := fun _ => FetchOutcome.reject "network unreachable"
  readEmails := fun _ => "No matching emails found."
  saveMemory := fun _ => "Information noted."
  sendWhatsAppMessage := fun _ => "ok"
  readWhatsAppChatHistory := fun _ => "ok"
  searchWhatsAppContact := fun _ => "ok"
  listDriveFiles := fun _ => "ok"
  readSheetData := fun _ => "ok"
  listCalendarEvents := fun _ => "ok"
  createCalendarEvent := fun _ => "ok"

/-! ## System prompt builder (src/lib/state.ts, getSystemPrompt) -/

/-- Literal text between the roles text and the listed memories in the
memory section template of `getSystemPrompt`. -/
def memoryHeader : String :=
  "\n---\nIMPORTANT USER-SPECIFIC MEMORIES:\nYou have been asked to remember the following things about this specific user. Use this information to personalize your conversation and actions.\n"

/-- Literal text closing the memory section template. -/
def memoryFooter : String := "\n---\n"

/-- The interpolated template string of `getSystemPrompt`: header, the
memories each prefixed with a dash and joined by newlines, footer. -/
def memorySection (memories : List String) : String :=
  memoryHeader ++ String.intercalate "\n" (memories.map (fun m => "- " ++ m)) ++ memoryFooter

/-- Embedding of `getSystemPrompt` (src/lib/state.ts lines 579-592):
returns the roles text unchanged when no memories are stored, otherwise
appends the memory section. -/
def getSystemPrompt (rolesAndDescription : String) (memories : List String) : String :=
  if memories.length = 0 then rolesAndDescription
  else rolesAndDescription ++ memorySection memories

/-! ## Session client and the connect guard (src/App.tsx, useLiveApi) -/

/-- Connection status exposed by the live client
(the string union of connected, disconnected and connecting in the source). -/
inductive ClientStatus where
  | disconnected
  | connecting
  | connected
deriving Repr, DecidableEq

/-- Connection configuration handed to `connect` (spec section 6); the
fields are carried but not interpreted by the guard under study. -/
structure LiveConnectConfig where
  model : String := ""
  voice : String := ""
  systemInstruction : String := ""
deriving Repr, DecidableEq

/-- Observable client state: the status plus counters for the live
sessions and the emitted `open` events. -/
structure ClientState where
  status : ClientStatus
  activeSessions : Nat
  openEvents : Nat
deriving Repr, DecidableEq

/-- Modelled from the spec: the `GenAILiveClient` class is not among the
excerpted sources.  Per spec section 4.1, `client.connect(config)` on an
idle client establishes the transport (Connecting, then Connected), emits
one `open` event, and leaves exactly one live session. -/
def clientConnect (s : ClientState) : ClientState :=
  { status := ClientStatus.connected, activeSessions := 1,
    openEvents := s.openEvents + 1 }

/-- Embedding of the hook-level `connect` (src/App.tsx lines 660-669):
throws when the config has not been set, returns immediately when the
client is already connected or connecting, and otherwise delegates to
`client.connect(config)`. -/
def connect (config : Option LiveConnectConfig) (s : ClientState) :
    Except String ClientState :=
  if config.isNone then Except.error "config has not been set"
  else if s.status = ClientStatus.connected ∨ s.status = ClientStatus.connecting then
    Except.ok s
  else Except.ok (clientConnect s)

/-! ## Inbound audio playback and interruption (src/App.tsx, stopAudioStreamer) -/

/-- Modelled from the spec: the `AudioStreamer` class is not among the
excerpted sources.  Per spec sections 3 and 4.4 its observable state is
the PlaybackQueue of pending chunks, the chunks scheduled but not yet
started, a playing flag, and (for bookkeeping here) the chunks whose
playback has begun.  Chunks are identified by numbers. -/
structure StreamerState where
  queue : List Nat
  scheduled : List Nat
  playing : Bool
  played : List Nat
deriving Repr, DecidableEq

/-- Events acting on the playback state: arrival of a decoded audio
chunk (the audio listener appends it via `addPCM16`), a scheduler
step that schedules the queue head, the start of a scheduled chunk, and
the `interrupted` event from the transport. -/
inductive StreamerEvent where
  | audio (c : Nat)
  | schedule
  | starts
  | interrupted
deriving Repr, DecidableEq

/-- Modelled from the spec: `AudioStreamer.stop()` clears the entire
PlaybackQueue, cancels already-scheduled-but-not-yet-started playback and
stops playing audio immediately (spec section 4.4).  The `interrupted`
handler of the hook (src/App.tsx lines 533-548) calls exactly this. -/
def streamerStop (s : StreamerState) : StreamerState :=
  { s with queue := [], scheduled := [], playing := false }

/-- One step of the playback state machine. -/
def streamerStep (s : StreamerState) : StreamerEvent → StreamerState
  | StreamerEvent.audio c => { s with queue := s.queue ++ [c] }
  | StreamerEvent.schedule =>
      match s.queue with
      | [] => s
      | c :: rest => { s with queue := rest, scheduled := s.scheduled ++ [c] }
  | StreamerEvent.starts =>
      match s.scheduled with
      | [] => s
      | c :: rest =>
          { s with scheduled := rest, playing := true, played := s.played ++ [c] }
  | StreamerEvent.interrupted => streamerStop s

/-- Runs a sequence of playback events from a state. -/
def streamerRun (s : StreamerState) (evs : List StreamerEvent) : StreamerState :=
  evs.foldl streamerStep s

/-! ## Microphone mute gating (src/components/demo/VoiceCall.tsx lines 39-71) -/

/-- The volume effect attaches its `volume` listener to the recorder only
while connected and not muted. -/
def volumeListenerAttached (connected isMuted : Bool) : Bool :=
  connected && !isMuted

/-- The data effect attaches its `data` listener and starts the recorder
only while connected and not muted; in every other case it stops the
recorder. -/
def recorderRunning (connected isMuted : Bool) : Bool :=
  connected && !isMuted

/-- A realtime input unit handed to `client.sendRealtimeInput`. -/
structure RealtimeChunk where
  mimeType : String
  data : String
deriving Repr, DecidableEq

/-- Observable outbound behaviour of the VoiceCall audio effects, given
the frames the microphone would produce while the recorder runs: the
chunks forwarded to the transport (the `data` handler wraps each frame as
16 kHz PCM) and the volume updates delivered to the attached listener.
A stopped recorder emits no frames and a detached listener receives no
updates. -/
def voiceCallAudio (connected isMuted : Bool) (frames : List String) :
    List RealtimeChunk × List String :=
  let sent :=
    if recorderRunning connected isMuted then
      frames.map (fun f => { mimeType := "audio/pcm;rate=16000", data := f })
    else []
  let volumes := if volumeListenerAttached connected isMuted then frames else []
  (sent, volumes)

/-! ## Camera frame streaming (src/unnamed/part_006 lines 147-183) -/

/-- The frame rate constant of the video effect (frames per second). -/
def frameRate : Nat := 2

/-- The `setInterval` period of the video effect in milliseconds. -/
def framePeriodMs : Nat := 1000 / frameRate

/-- The video effect installs its interval timer only when the camera is
on, the session is connected, and the video/canvas refs with a drawing
context are present; otherwise no timer runs. -/
def videoEffectInterval (isCameraOn connected refsPresent : Bool) : Option Nat :=
  if isCameraOn && connected && refsPresent then some framePeriodMs else none

/-- Encoder-side state of the video effect: the number of `toBlob`
encodes started but not yet completed, and the realtime inputs sent so
far (recorded by mime type). -/
structure VideoState where
  pendingEncodes : Nat
  sentFrames : List String
deriving Repr, DecidableEq

/-- One timer tick of the video effect: the callback unconditionally
draws the current video frame and starts a new `toBlob` encode; it does
not inspect or wait for previously started encodes. -/
def videoTick (s : VideoState) : VideoState :=
  { s with pendingEncodes := s.pendingEncodes + 1 }

/-- Completion of one `toBlob` encode: when the blob is non-null its
base64 payload is sent as one `image/jpeg` realtime input. -/
def videoEncodeDone (blobOk : Bool) (s : VideoState) : VideoState :=
  { pendingEncodes := s.pendingEncodes - 1,
    sentFrames := if blobOk then s.sentFrames ++ ["image/jpeg"] else s.sentFrames }

/-! ## Tool store (src/lib/state.ts, useTools) -/

/-- Response scheduling attached to a tool declaration. -/
inductive Scheduling where
  | INTERRUPT
  | WHEN_IDLE
  | SILENT
deriving Repr, DecidableEq

/-- Parameter schema of a tool declaration; `addTool` installs an empty
object schema, other shapes are carried as uninterpreted text. -/
inductive ParamSchema where
  | emptyObject
  | raw (s : String)
deriving Repr, DecidableEq

/-- A tool declaration as stored in the `useTools` store (the
`FunctionCall` interface of src/lib/state.ts). -/
structure FunctionCallDecl where
  name : String
  description : String := ""
  parameters : ParamSchema := ParamSchema.emptyObject
  isEnabled : Bool := true
  scheduling : Scheduling := Scheduling.INTERRUPT
deriving Repr, DecidableEq

/-- The candidate names tried by `addTool` after the initial
`new_function`: `new_function_` followed by the decimal counter. -/
def numberedToolName (k : Nat) : String := "new_function_" ++ Nat.repr k

/-- The while loop of `addTool`: as long as the candidate name is taken,
replace it by `new_function_` with the post-incremented counter.  The
source loop is unbounded; here it carries fuel, and `freshToolName`
supplies enough fuel for the exhaustion branch to be unreachable (proved
in `freshToolName_not_mem`). -/
def freshNameLoop (names : List String) : Nat → Nat → String → String
  | 0, _, cand => cand
  | fuel + 1, counter, cand =>
      if cand ∈ names then freshNameLoop names fuel (counter + 1) (numberedToolName counter)
      else cand

/-- The name chosen by `addTool`: start from `new_function` with the
counter at 1. -/
def freshToolName (tools : List FunctionCallDecl) : String :=
  freshNameLoop (tools.map (fun t => t.name)) (tools.length + 1) 1 "new_function"

/-- The tool record appended by `addTool`. -/
def newToolDecl (name : String) : FunctionCallDecl :=
  { name := name, isEnabled := true, description := "",
    parameters := ParamSchema.emptyObject, scheduling := Scheduling.INTERRUPT }

/-- Embedding of `addTool` (src/lib/state.ts lines 880-903). -/
def addTool (tools : List FunctionCallDecl) : List FunctionCallDecl :=
  tools ++ [newToolDecl (freshToolName tools)]

/-- Embedding of `updateTool` (src/lib/state.ts lines 908-925): when the
name was changed and the new name collides with an existing tool, the
state is returned unchanged; otherwise the tool bearing `oldName` is
replaced by `updatedTool`. -/
def updateTool (oldName : String) (updatedTool : FunctionCallDecl)
    (tools : List FunctionCallDecl) : List FunctionCallDecl :=
  if oldName ≠ updatedTool.name ∧ (∃ t ∈ tools, t.name = updatedTool.name) then tools
  else tools.map (fun t => if t.name = oldName then updatedTool else t)

/-- Embedding of `toggleTool` (src/lib/state.ts lines 874-879). -/
def toggleTool (toolName : String) (tools : List FunctionCallDecl) :
    List FunctionCallDecl :=
  tools.map (fun t =>
    if t.name = toolName then { t with isEnabled := !t.isEnabled } else t)

/-- Embedding of `removeTool` (src/lib/state.ts lines 904-907). -/
def removeTool (toolName : String) (tools : List FunctionCallDecl) :
    List FunctionCallDecl :=
  tools.filter (fun t => t.name ≠ toolName)

/-! ### Decimal representation facts

`addTool` relies on the candidate names being pairwise distinct, which
reduces to injectivity of `Nat.repr`.  The following development proves
it from the core definitions. -/

/-- Big-endian decimal digit characters of a natural number, the list
that `Nat.toDigitsCore` at base 10 prepends to its accumulator. -/
def decimalChars (n : Nat) : List Char :=
  if h : n < 10 then [Nat.digitChar n]
  else decimalChars (n / 10) ++ [Nat.digitChar (n % 10)]
decreasing_by
  exact Nat.div_lt_self (by omega) (by omega)

theorem decimalChars_ne_nil (n : Nat) : decimalChars n ≠ [] := by
  rw [decimalChars]
  split <;> simp

theorem toDigitsCore_eq_decimalChars :
    ∀ (fuel n : Nat) (ds : List Char), n < fuel →
      Nat.toDigitsCore 10 fuel n ds = decimalChars n ++ ds := by
  intro fuel
  induction fuel with
  | zero => intro n ds h; exact absurd h (Nat.not_lt_zero n)
  | succ f ih =>
      intro n ds h
      simp only [Nat.toDigitsCore]
      by_cases h10 : n / 10 = 0
      · have hn10 : n < 10 := by omega
        rw [if_pos h10]
        rw [decimalChars, dif_pos hn10, Nat.mod_eq_of_lt hn10]
        simp
      · rw [if_neg h10]
        have hpos : 0 < n := by
          rcases Nat.eq_zero_or_pos n with h0 | h0
          · exact absurd (by simp [h0]) h10
          · exact h0
        have hlt : n / 10 < f := by
          have := Nat.div_lt_self hpos (by omega : 1 < 10)
          omega
        rw [ih (n / 10) (Nat.digitChar (n % 10) :: ds) hlt]
        have hge : ¬ n < 10 := fun hc => h10 (Nat.div_eq_of_lt hc)
        conv_rhs => rw [decimalChars, dif_neg hge]
        simp

theorem toDigits_eq_decimalChars (n : Nat) :
    Nat.toDigits 10 n = decimalChars n := by
  have := toDigitsCore_eq_decimalChars (n + 1) n [] (Nat.lt_succ_self n)
  simpa [Nat.toDigits] using this

theorem digitChar_injOn : ∀ a < 10, ∀ b < 10,
    Nat.digitChar a = Nat.digitChar b → a = b := by decide

theorem decimalChars_lt {n : Nat} (h : n < 10) :
    decimalChars n = [Nat.digitChar n] := by
  rw [decimalChars, dif_pos h]

theorem decimalChars_ge {n : Nat} (h : ¬ n < 10) :
    decimalChars n = decimalChars (n / 10) ++ [Nat.digitChar (n % 10)] := by
  conv_lhs => rw [decimalChars, dif_neg h]

theorem decimalChars_inj (m : Nat) :
    ∀ n, decimalChars m = decimalChars n → m = n := by
  induction m using Nat.strong_induction_on with
  | _ m ih =>
      intro n h
      by_cases hm : m < 10 <;> by_cases hn : n < 10
      · rw [decimalChars_lt hm, decimalChars_lt hn] at h
        exact digitChar_injOn m hm n hn (List.cons.inj h).1
      · rw [decimalChars_lt hm, decimalChars_ge hn] at h
        have hlen := congrArg List.length h
        rw [List.length_append] at hlen
        simp only [List.length_singleton] at hlen
        have h0 : (decimalChars (n / 10)).length = 0 := by omega
        exact absurd (List.length_eq_zero.mp h0) (decimalChars_ne_nil (n / 10))
      · rw [decimalChars_ge hm, decimalChars_lt hn] at h
        have hlen := congrArg List.length h
        rw [List.length_append] at hlen
        simp only [List.length_singleton] at hlen
        have h0 : (decimalChars (m / 10)).length = 0 := by omega
        exact absurd (List.length_eq_zero.mp h0) (decimalChars_ne_nil (m / 10))
      · rw [decimalChars_ge hm, decimalChars_ge hn] at h
        have h2 := congrArg List.reverse h
        simp only [List.reverse_append, List.reverse_cons, List.reverse_nil,
          List.nil_append, List.singleton_append, List.cons.injEq] at h2
        obtain ⟨hd, htl⟩ := h2
        have hdivlt : m / 10 < m := Nat.div_lt_self (by omega) (by omega)
        have hdiv : m / 10 = n / 10 :=
          ih (m / 10) hdivlt (n / 10) (List.reverse_injective htl)
        have hmod : m % 10 = n % 10 :=
          digitChar_injOn (m % 10) (Nat.mod_lt m (by omega)) (n % 10)
            (Nat.mod_lt n (by omega)) hd
        omega

theorem natRepr_inj {m n : Nat} (h : Nat.repr m = Nat.repr n) : m = n := by
  have h2 := congrArg String.data h
  simp only [Nat.repr, List.asString] at h2
  exact decimalChars_inj m n (by
    rw [← toDigits_eq_decimalChars, ← toDigits_eq_decimalChars]
    exact h2)

theorem numberedToolName_inj {a b : Nat}
    (h : numberedToolName a = numberedToolName b) : a = b := by
  have h2 := congrArg String.data h
  simp only [numberedToolName, String.data_append] at h2
  exact natRepr_inj (congrArg List.asString (List.append_cancel_left h2))

theorem base_ne_numberedToolName (k : Nat) :
    "new_function" ≠ numberedToolName k := by
  intro h
  have h2 := congrArg String.length h
  rw [numberedToolName, String.length_append] at h2
  have e1 : ("new_function" : String).length = 12 := by decide
  have e2 : ("new_function_" : String).length = 13 := by decide
  rw [e1, e2] at h2
  omega

/-! ## Helper lemmas about the dispatcher -/

theorem onToolCallLoop_eq (env : HandlerEnv) (fcs : List FunctionCall) :
    onToolCallLoop env fcs =
      (fcs.map (fun fc => Effect.logTrigger fc.name),
       fcs.map (fun fc =>
         { id := fc.id, name := fc.name, result := dispatch env fc.name fc.args })) := by
  induction fcs with
  | nil => rfl
  | cons a t ih => simp [onToolCallLoop, ih]

theorem dispatch_default (env : HandlerEnv) (name : String) (args : Args)
    (h : name ∉ registeredToolNames) : dispatch env name args = "ok" := by
  simp only [registeredToolNames, List.mem_cons, List.not_mem_nil, or_false] at h
  push_neg at h
  obtain ⟨h1, h2, h3, h4, h5, h6, h7, h8, h9, h10⟩ := h
  simp [dispatch, h1, h2, h3, h4, h5, h6, h7, h8, h9, h10]

/-- C1: for every incoming ToolCall batch of size N, the dispatcher
`onToolCall` produces exactly N response entries, each carrying the id
and the name of its originating call (in the batch order), and its
effect trace contains exactly one `sendToolResponse`, which carries the
full response batch and is the last effect — so no partial batch is ever
submitted and the send happens only after all N results are known. -/
theorem toolCallBatch_oneSend_complete (env : HandlerEnv) (fcs : List FunctionCall) :
    ((onToolCall env fcs).2).length = fcs.length ∧
    ((onToolCall env fcs).2).map (fun r => r.id) = fcs.map (fun c => c.id) ∧
    ((onToolCall env fcs).2).map (fun r => r.name) = fcs.map (fun c => c.name) ∧
    ((onToolCall env fcs).1).filter Effect.isSend = [Effect.send (onToolCall env fcs).2] ∧
    ((onToolCall env fcs).1).getLast? = some (Effect.send (onToolCall env fcs).2) := by
  refine ⟨?_, ?_, ?_, ?_, ?_⟩ <;>
    simp [onToolCall, onToolCallLoop_eq, List.filter_append, List.getLast?_concat,
      Effect.isSend, List.filter_map, Function.comp] <;>
    split <;> simp [Effect.isSend]

/-- C5: a ToolCall whose name matches no case of the dispatch switch
resolves to the neutral default result `ok`; the response carries the
id and name of the call, and the batch completes normally with its single
send. -/
theorem unknownTool_default_ok (env : HandlerEnv) (fc : FunctionCall)
    (h : fc.name ∉ registeredToolNames) :
    onToolCall env [fc] =
      ([Effect.logTrigger fc.name, Effect.logResponse,
        Effect.send [{ id := fc.id, name := fc.name, result := "ok" }]],
       [{ id := fc.id, name := fc.name, result := "ok" }]) := by
  simp [onToolCall, onToolCallLoop, dispatch_default env fc.name fc.args h]

/-- Witness for C5 at the concrete call of the specification scenario. -/
theorem unknownTool_default_ok_witness :
    ("unknown_tool" ∉ registeredToolNames) ∧
    onToolCall sampleEnv [{ id := "x", name := "unknown_tool", args := {} }] =
      ([Effect.logTrigger "unknown_tool", Effect.logResponse,
        Effect.send [{ id := "x", name := "unknown_tool", result := "ok" }]],
       [{ id := "x", name := "unknown_tool", result := "ok" }]) :=
  ⟨by decide, unknownTool_default_ok sampleEnv
    { id := "x", name := "unknown_tool", args := {} } (by decide)⟩

/-- C6: when the embedded `send_email` handler fails — its Gmail fetch
rejects, which also covers the auth-missing and malformed-argument paths
checked first — the failure is contained inside the handler: the
response entry for that call carries one of the descriptive failure
texts, the dispatcher completes the whole batch, and the single send is
still the last effect.  No dispatcher-level fault exists in the model:
`onToolCall` is a total function. -/
theorem sendEmail_failure_contained (env : HandlerEnv) (fcs : List FunctionCall)
    (fc : FunctionCall) (hmem : fc ∈ fcs) (hname : fc.name = "send_email")
    (msg : String) (hnet : env.sendEmailNet fc.args = FetchOutcome.reject msg) :
    ((onToolCall env fcs).2).length = fcs.length ∧
    ((onToolCall env fcs).1).getLast? = some (Effect.send (onToolCall env fcs).2) ∧
    ∃ r, ({ id := fc.id, name := fc.name, result := r } : FunctionResponse) ∈
        (onToolCall env fcs).2 ∧
      (r = "User is not connected to Google. Please ask them to sign in with their Google account." ∨
       r = "Missing required parameters for sending an email. I need a recipient, a subject, and a body." ∨
       r = "An error occurred while sending the email: " ++ msg) := by
  refine ⟨?_, ?_, ?_⟩
  · simp [onToolCall, onToolCallLoop_eq]
  · simp [onToolCall, onToolCallLoop_eq, List.getLast?_concat]
  · refine ⟨dispatch env fc.name fc.args, ?_, ?_⟩
    · simp only [onToolCall, onToolCallLoop_eq]
      exact List.mem_map_of_mem _ hmem
    · rw [hname]
      have hsw : dispatch env "send_email" fc.args
          = handleSendEmail fc.args env.auth (env.sendEmailNet fc.args) := by
        simp [dispatch]
      rw [hsw, hnet]
      unfold handleSendEmail
      split
      · exact Or.inl rfl
      · split
        · exact Or.inr (Or.inl rfl)
        · exact Or.inr (Or.inr rfl)

/-- Witness for C6: one-call batch whose Gmail fetch rejects. -/
theorem sendEmail_failure_contained_witness :
    (({ id := "a", name := "send_email", args := {} } : FunctionCall) ∈
        [({ id := "a", name := "send_email", args := {} } : FunctionCall)]) ∧
    (sampleEnv.sendEmailNet {} = FetchOutcome.reject "network unreachable") ∧
    (((onToolCall sampleEnv [{ id := "a", name := "send_email", args := {} }]).2).length = 1 ∧
     ((onToolCall sampleEnv [{ id := "a", name := "send_email", args := {} }]).1).getLast?
        = some (Effect.send (onToolCall sampleEnv [{ id := "a", name := "send_email", args := {} }]).2) ∧
     ∃ r, ({ id := "a", name := "send_email", result := r } : FunctionResponse) ∈
         (onToolCall sampleEnv [{ id := "a", name := "send_email", args := {} }]).2 ∧
       (r = "User is not connected to Google. Please ask them to sign in with their Google account." ∨
        r = "Missing required parameters for sending an email. I need a recipient, a subject, and a body." ∨
        r = "An error occurred while sending the email: " ++ "network unreachable")) :=
  ⟨List.mem_singleton.mpr rfl, rfl,
   sendEmail_failure_contained sampleEnv _ _ (List.mem_singleton.mpr rfl) rfl
     "network unreachable" rfl⟩

/-- C2: a call to `connect` while the client is already connecting or
connected returns immediately without touching the state, so exactly one
active session remains; and connecting twice in a row from an idle state
with no intervening disconnect yields exactly one `open` event and one
live session in total. -/
theorem connect_idempotent_when_active (cfg : LiveConnectConfig) (s s₀ : ClientState)
    (h : s.status = ClientStatus.connecting ∨ s.status = ClientStatus.connected)
    (h0 : s₀.status = ClientStatus.disconnected) :
    connect (some cfg) s = Except.ok s ∧
    Except.bind (connect (some cfg) s₀) (fun s1 => connect (some cfg) s1) =
      Except.ok { status := ClientStatus.connected, activeSessions := 1,
                  openEvents := s₀.openEvents + 1 } := by
  constructor
  · rcases h with h | h <;> simp [connect, h]
  · simp [connect, h0, clientConnect, Except.bind]

/-- Witness for C2 at a connected state and an idle state. -/
theorem connect_idempotent_when_active_witness :
    (({ status := ClientStatus.connected, activeSessions := 1, openEvents := 1 }
        : ClientState).status = ClientStatus.connecting ∨
     ({ status := ClientStatus.connected, activeSessions := 1, openEvents := 1 }
        : ClientState).status = ClientStatus.connected) ∧
    (({ status := ClientStatus.disconnected, activeSessions := 0, openEvents := 0 }
        : ClientState).status = ClientStatus.disconnected) ∧
    (connect (some {}) { status := ClientStatus.connected, activeSessions := 1, openEvents := 1 }
        = Except.ok { status := ClientStatus.connected, activeSessions := 1, openEvents := 1 } ∧
     Except.bind
        (connect (some {})
          { status := ClientStatus.disconnected, activeSessions := 0, openEvents := 0 })
        (fun s1 => connect (some {}) s1)
        = Except.ok { status := ClientStatus.connected, activeSessions := 1, openEvents := 1 }) :=
  ⟨Or.inr rfl, rfl,
   connect_idempotent_when_active {} _ _ (Or.inr rfl) rfl⟩

/-- C8: a call to `connect` with the configuration absent fails
synchronously with the configuration error and never returns a client
state, so no session — not even a partial one — is created. -/
theorem connect_missing_config_error (s : ClientState) :
    connect none s = Except.error "config has not been set" ∧
    ∀ t : ClientState, connect none s ≠ Except.ok t := by
  refine ⟨rfl, ?_⟩
  intro t h
  exact Except.noConfusion (h.symm.trans rfl)

/-! ## Helper lemma for playback interruption -/

theorem streamerRun_played_closure :
    ∀ (evs : List StreamerEvent) (t : StreamerState) (c : Nat),
      c ∈ (streamerRun t evs).played →
      c ∈ t.played ∨ c ∈ t.queue ∨ c ∈ t.scheduled ∨ StreamerEvent.audio c ∈ evs := by
  intro evs
  induction evs with
  | nil =>
      intro t c h
      simp only [streamerRun, List.foldl_nil] at h
      exact Or.inl h
  | cons e rest ih =>
      intro t c h
      simp only [streamerRun, List.foldl_cons] at h
      have hrec := ih (streamerStep t e) c h
      cases e with
      | audio a =>
          simp only [streamerStep] at hrec
          rcases hrec with h1 | h1 | h1 | h1
          · exact Or.inl h1
          · rcases List.mem_append.mp h1 with h2 | h2
            · exact Or.inr (Or.inl h2)
            · have : c = a := by simpa using h2
              exact Or.inr (Or.inr (Or.inr (by simp [this])))
          · exact Or.inr (Or.inr (Or.inl h1))
          · exact Or.inr (Or.inr (Or.inr (List.mem_cons_of_mem _ h1)))
      | schedule =>
          rcases hq : t.queue with _ | ⟨q0, qrest⟩ <;>
            simp only [streamerStep, hq] at hrec
          · rcases hrec with h1 | h1 | h1 | h1
            · exact Or.inl h1
            · exact absurd h1 (List.not_mem_nil c)
            · exact Or.inr (Or.inr (Or.inl h1))
            · exact Or.inr (Or.inr (Or.inr (List.mem_cons_of_mem _ h1)))
          · rcases hrec with h1 | h1 | h1 | h1
            · exact Or.inl h1
            · exact Or.inr (Or.inl (by simp [hq, h1]))
            · rcases List.mem_append.mp h1 with h2 | h2
              · exact Or.inr (Or.inr (Or.inl h2))
              · have : c = q0 := by simpa using h2
                exact Or.inr (Or.inl (by simp [hq, this]))
            · exact Or.inr (Or.inr (Or.inr (List.mem_cons_of_mem _ h1)))
      | starts =>
          rcases hs : t.scheduled with _ | ⟨s0, srest⟩ <;>
            simp only [streamerStep, hs] at hrec
          · rcases hrec with h1 | h1 | h1 | h1
            · exact Or.inl h1
            · exact Or.inr (Or.inl h1)
            · exact absurd h1 (List.not_mem_nil c)
            · exact Or.inr (Or.inr (Or.inr (List.mem_cons_of_mem _ h1)))
          · rcases hrec with h1 | h1 | h1 | h1
            · rcases List.mem_append.mp h1 with h2 | h2
              · exact Or.inl h2
              · have : c = s0 := by simpa using h2
                exact Or.inr (Or.inr (Or.inl (by simp [hs, this])))
            · exact Or.inr (Or.inl h1)
            · exact Or.inr (Or.inr (Or.inl (by simp [hs, h1])))
            · exact Or.inr (Or.inr (Or.inr (List.mem_cons_of_mem _ h1)))
      | interrupted =>
          simp only [streamerStep, streamerStop] at hrec
          rcases hrec with h1 | h1 | h1 | h1
          · exact Or.inl h1
          · exact absurd h1 (List.not_mem_nil c)
          · exact absurd h1 (List.not_mem_nil c)
          · exact Or.inr (Or.inr (Or.inr (List.mem_cons_of_mem _ h1)))

/-- C3: delivering an `interrupted` event while the PlaybackQueue is
non-empty clears the queue to length 0, cancels all
scheduled-but-not-started playback, stops currently playing audio, and
no chunk received before the event is ever played afterwards: every
chunk whose playback begins after the interruption either had already
begun before it or arrives after it. -/
theorem interrupted_flushes_playback (s : StreamerState) (h : s.queue ≠ [])
    (evs : List StreamerEvent) (c : Nat) :
    (streamerStep s StreamerEvent.interrupted).queue = [] ∧
    (streamerStep s StreamerEvent.interrupted).scheduled = [] ∧
    (streamerStep s StreamerEvent.interrupted).playing = false ∧
    (c ∈ (streamerRun (streamerStep s StreamerEvent.interrupted) evs).played →
      c ∈ s.played ∨ StreamerEvent.audio c ∈ evs) := by
  refine ⟨rfl, rfl, rfl, ?_⟩
  intro hc
  have hclo := streamerRun_played_closure evs (streamerStep s StreamerEvent.interrupted) c hc
  simp only [streamerStep, streamerStop] at hclo
  rcases hclo with h1 | h1 | h1 | h1
  · exact Or.inl h1
  · exact absurd h1 (List.not_mem_nil c)
  · exact absurd h1 (List.not_mem_nil c)
  · exact Or.inr h1

/-- Witness for C3: a one-chunk queue, then an interruption, then fresh
audio arriving and being scheduled and played. -/
theorem interrupted_flushes_playback_witness :
    (({ queue := [5], scheduled := [], playing := true, played := [] }
        : StreamerState).queue ≠ []) ∧
    ((streamerStep { queue := [5], scheduled := [], playing := true, played := [] }
        StreamerEvent.interrupted).queue = [] ∧
     (streamerStep { queue := [5], scheduled := [], playing := true, played := [] }
        StreamerEvent.interrupted).scheduled = [] ∧
     (streamerStep { queue := [5], scheduled := [], playing := true, played := [] }
        StreamerEvent.interrupted).playing = false ∧
     ((5 : Nat) ∈ (streamerRun
          (streamerStep { queue := [5], scheduled := [], playing := true, played := [] }
            StreamerEvent.interrupted)
          [StreamerEvent.audio 7, StreamerEvent.schedule, StreamerEvent.starts]).played →
        (5 : Nat) ∈ ({ queue := [5], scheduled := [], playing := true, played := [] }
          : StreamerState).played ∨
        StreamerEvent.audio 5 ∈
          [StreamerEvent.audio 7, StreamerEvent.schedule, StreamerEvent.starts])) :=
  ⟨by decide,
   interrupted_flushes_playback _ (by decide)
     [StreamerEvent.audio 7, StreamerEvent.schedule, StreamerEvent.starts] 5⟩

/-- C4 counterexample: in the state "connected and muted" with one
microphone frame available, the code forwards nothing — but it also
delivers no volume update, because the mute gate detaches the volume
listener and stops the recorder; the claim demands that metering
continue. -/
theorem muted_metering_counterexample :
    (voiceCallAudio true true ["f0"]).1 = [] ∧
    (voiceCallAudio true true ["f0"]).2 = [] ∧
    ¬ (voiceCallAudio true true ["f0"]).2 = ["f0"] ∧
    volumeListenerAttached true true = false ∧
    recorderRunning true true = false := by decide

/-- C4 amended: while connected and muted, no outbound audio chunk is
forwarded to the transport — but volume metering does not continue
either: muting stops the recorder and detaches both the data and the
volume listeners, so no volume samples are delivered while muted.  While
connected and unmuted, every frame is forwarded as 16 kHz PCM and every
frame produces a volume update. -/
theorem muted_gate_amended (connected : Bool) (frames : List String) :
    voiceCallAudio connected true frames = ([], []) ∧
    recorderRunning connected true = false ∧
    volumeListenerAttached connected true = false ∧
    voiceCallAudio true false frames =
      (frames.map (fun f => { mimeType := "audio/pcm;rate=16000", data := f }), frames) := by
  cases connected <;>
    simp [voiceCallAudio, recorderRunning, volumeListenerAttached]

/-- C7 counterexample: a timer tick that fires while one encode is still
pending is not skipped — the tick callback unconditionally starts a new
encode, leaving two encodes in flight, whereas the claim requires the
state to be left unchanged by a skipped tick. -/
theorem videoTick_no_skip_counterexample :
    (videoTick { pendingEncodes := 1, sentFrames := [] }).pendingEncodes = 2 ∧
    videoTick { pendingEncodes := 1, sentFrames := [] } ≠
      { pendingEncodes := 1, sentFrames := [] } := by decide

/-- C7 amended: while the camera is on, the session connected and the
refs present, the video pipeline samples on a fixed 1000/2 = 500 ms
cadence (2 frames per second) and each completed encode sends exactly
one `image/jpeg` realtime input; when the camera is off, the session
not connected, or the refs absent, no timer runs.  Ticks are never
skipped and never block: every tick starts a new encode regardless of
how many encodes are still pending, so encodes may overlap. -/
theorem videoPipeline_cadence_amended (cam conn refs : Bool) (s : VideoState)
    (h : cam = false ∨ conn = false ∨ refs = false) :
    videoEffectInterval true true true = some 500 ∧
    frameRate = 2 ∧
    framePeriodMs = 1000 / 2 ∧
    videoEffectInterval cam conn refs = none ∧
    (videoTick s).pendingEncodes = s.pendingEncodes + 1 ∧
    (videoTick s).sentFrames = s.sentFrames ∧
    videoEncodeDone true s =
      { pendingEncodes := s.pendingEncodes - 1,
        sentFrames := s.sentFrames ++ ["image/jpeg"] } := by
  rcases h with h | h | h <;> subst h <;>
    simp [videoEffectInterval, framePeriodMs, frameRate, videoTick, videoEncodeDone]

/-- Witness for the amended C7 statement with the camera just turned off. -/
theorem videoPipeline_cadence_amended_witness :
    ((false : Bool) = false ∨ (true : Bool) = false ∨ (true : Bool) = false) ∧
    (videoEffectInterval true true true = some 500 ∧
     frameRate = 2 ∧
     framePeriodMs = 1000 / 2 ∧
     videoEffectInterval false true true = none ∧
     (videoTick { pendingEncodes := 0, sentFrames := [] }).pendingEncodes = 0 + 1 ∧
     (videoTick { pendingEncodes := 0, sentFrames := [] }).sentFrames = [] ∧
     videoEncodeDone true { pendingEncodes := 0, sentFrames := [] } =
       { pendingEncodes := 0 - 1, sentFrames := [] ++ ["image/jpeg"] }) :=
  ⟨Or.inl rfl,
   videoPipeline_cadence_amended false true true { pendingEncodes := 0, sentFrames := [] }
     (Or.inl rfl)⟩

/-! ## Helper lemmas for the tool store -/

theorem freshNameLoop_spec (names : List String) :
    ∀ (fuel counter : Nat) (cand : String),
      freshNameLoop names fuel counter cand ∉ names ∨
      ∀ x ∈ cand :: (List.range fuel).map (fun i => numberedToolName (counter + i)),
        x ∈ names := by
  intro fuel
  induction fuel with
  | zero =>
      intro counter cand
      by_cases hc : cand ∈ names
      · refine Or.inr ?_
        intro x hx
        simp only [List.range_zero, List.map_nil] at hx
        rcases List.mem_cons.mp hx with rfl | hx2
        · exact hc
        · exact absurd hx2 (List.not_mem_nil x)
      · exact Or.inl (by simpa [freshNameLoop] using hc)
  | succ f ih =>
      intro counter cand
      by_cases hc : cand ∈ names
      · rcases ih (counter + 1) (numberedToolName counter) with hl | hr
        · exact Or.inl (by simpa [freshNameLoop, hc] using hl)
        · refine Or.inr ?_
          intro x hx
          rcases List.mem_cons.mp hx with rfl | hx2
          · exact hc
          · obtain ⟨i, hi, rfl⟩ := List.mem_map.mp hx2
            have hi2 := List.mem_range.mp hi
            cases i with
            | zero => exact hr _ (List.mem_cons_self _ _)
            | succ j =>
                have harith : counter + (j + 1) = (counter + 1) + j := by omega
                rw [harith]
                exact hr _ (List.mem_cons_of_mem _
                  (List.mem_map.mpr ⟨j, List.mem_range.mpr (by omega), rfl⟩))
      · exact Or.inl (by simpa [freshNameLoop, hc] using hc)

theorem freshToolName_not_mem (tools : List FunctionCallDecl) :
    freshToolName tools ∉ tools.map (fun t => t.name) := by
  rcases freshNameLoop_spec (tools.map (fun t => t.name)) (tools.length + 1) 1
      "new_function" with h | h
  · exact h
  · exfalso
    have hsub : ("new_function" ::
        (List.range (tools.length + 1)).map (fun i => numberedToolName (1 + i)))
          ⊆ tools.map (fun t => t.name) := fun x hx => h x hx
    have hnd : ("new_function" ::
        (List.range (tools.length + 1)).map (fun i => numberedToolName (1 + i))).Nodup := by
      refine List.nodup_cons.mpr ⟨?_, ?_⟩
      · intro hmem
        obtain ⟨i, _, he⟩ := List.mem_map.mp hmem
        exact base_ne_numberedToolName (1 + i) he.symm
      · refine List.Nodup.map ?_ (List.nodup_range _)
        intro a b hab
        have := numberedToolName_inj hab
        omega
    have hle := (List.subperm_of_subset hnd hsub).length_le
    simp only [List.length_cons, List.length_map, List.length_range] at hle
    omega

theorem rename_names_self (oldN : String) (ns : List String) :
    ns.map (fun n => if n = oldN then oldN else n) = ns := by
  induction ns with
  | nil => rfl
  | cons a t ih => by_cases h : a = oldN <;> simp [h, ih]

theorem rename_names_nodup_of_not_mem (oldN newN : String) :
    ∀ ns : List String, ns.Nodup → newN ∉ ns →
      (ns.map (fun n => if n = oldN then newN else n)).Nodup := by
  intro ns
  induction ns with
  | nil => intro _ _; simp
  | cons a t iht =>
      intro hnd hnew
      obtain ⟨ha, ht⟩ := List.nodup_cons.mp hnd
      have hnewt : newN ∉ t := fun hm => hnew (List.mem_cons_of_mem a hm)
      have hnewa : newN ≠ a := fun he => hnew (by simp [he])
      simp only [List.map_cons, List.nodup_cons]
      refine ⟨?_, iht ht hnewt⟩
      intro hmem
      obtain ⟨b, hb, he⟩ := List.mem_map.mp hmem
      by_cases hba : b = oldN <;> by_cases hao : a = oldN
      · exact ha (by rw [hao, ← hba]; exact hb)
      · rw [if_pos hba, if_neg hao] at he
        exact hnewa he
      · rw [if_neg hba, if_pos hao] at he
        exact hnewt (he ▸ hb)
      · rw [if_neg hba, if_neg hao] at he
        exact ha (he ▸ hb)

theorem updateTool_map_names (oldN : String) (upd : FunctionCallDecl)
    (tools : List FunctionCallDecl) :
    (tools.map (fun t => if t.name = oldN then upd else t)).map (fun t => t.name)
      = (tools.map (fun t => t.name)).map (fun n => if n = oldN then upd.name else n) := by
  induction tools with
  | nil => rfl
  | cons a t ih =>
      simp only [List.map_cons, ih]
      congr 1
      by_cases h : a.name = oldN <;> simp [h]

theorem toggleTool_map_names (nm : String) (tools : List FunctionCallDecl) :
    (toggleTool nm tools).map (fun t => t.name) = tools.map (fun t => t.name) := by
  simp only [toggleTool]
  induction tools with
  | nil => rfl
  | cons a t ih => by_cases h : a.name = nm <;> simp [h, ih]

/-- C9: pairwise distinctness of the tool names in the `useTools` store
is preserved by every store operation on an arbitrary state: the name
generated by `addTool` (`new_function` or `new_function_` with a
counter) is never already present, `addTool` keeps the names distinct,
`updateTool` returns the state unchanged whenever the rename collides
with an existing name and keeps the names distinct otherwise, and
`toggleTool` and `removeTool` keep the names distinct as well. -/
theorem toolNames_nodup_invariant (tools : List FunctionCallDecl)
    (nm oldName : String) (upd : FunctionCallDecl)
    (h : (tools.map (fun t => t.name)).Nodup) :
    freshToolName tools ∉ tools.map (fun t => t.name) ∧
    ((addTool tools).map (fun t => t.name)).Nodup ∧
    (oldName ≠ upd.name → (∃ t ∈ tools, t.name = upd.name) →
      updateTool oldName upd tools = tools) ∧
    ((updateTool oldName upd tools).map (fun t => t.name)).Nodup ∧
    ((toggleTool nm tools).map (fun t => t.name)).Nodup ∧
    ((removeTool nm tools).map (fun t => t.name)).Nodup := by
  refine ⟨freshToolName_not_mem tools, ?_, ?_, ?_, ?_, ?_⟩
  · have hfresh := freshToolName_not_mem tools
    simp only [addTool, List.map_append, List.map_cons, List.map_nil, newToolDecl]
    refine List.nodup_append.mpr ⟨h, List.nodup_singleton _, ?_⟩
    intro a ha1 ha2
    have ha3 : a = freshToolName tools := by simpa using ha2
    rw [ha3] at ha1
    exact hfresh ha1
  · intro hne hex
    simp only [updateTool, if_pos (And.intro hne hex)]
  · by_cases hcond : oldName ≠ upd.name ∧ (∃ t ∈ tools, t.name = upd.name)
    · simpa only [updateTool, if_pos hcond] using h
    · simp only [updateTool, if_neg hcond]
      rw [updateTool_map_names]
      rcases Classical.em (oldName = upd.name) with heq | hneq
      · rw [← heq, rename_names_self]
        exact h
      · have hnm : upd.name ∉ tools.map (fun t => t.name) := by
          intro hmem
          obtain ⟨t, ht, he⟩ := List.mem_map.mp hmem
          exact hcond ⟨hneq, ⟨t, ht, he⟩⟩
        exact rename_names_nodup_of_not_mem oldName upd.name _ h hnm
  · rw [toggleTool_map_names]
    exact h
  · have hsub : List.Sublist ((removeTool nm tools).map (fun t => t.name))
        (tools.map (fun t => t.name)) :=
      List.Sublist.map _ (List.filter_sublist tools)
    exact List.Nodup.sublist hsub h

/-- Witness for C9 on a one-tool store whose name forces the counter
loop of `addTool` through one iteration. -/
theorem toolNames_nodup_invariant_witness :
    (([newToolDecl "new_function"].map (fun t => t.name)).Nodup) ∧
    (freshToolName [newToolDecl "new_function"]
        ∉ [newToolDecl "new_function"].map (fun t => t.name) ∧
     ((addTool [newToolDecl "new_function"]).map (fun t => t.name)).Nodup ∧
     ("a" ≠ (newToolDecl "b").name →
        (∃ t ∈ [newToolDecl "new_function"], t.name = (newToolDecl "b").name) →
        updateTool "a" (newToolDecl "b") [newToolDecl "new_function"]
          = [newToolDecl "new_function"]) ∧
     ((updateTool "a" (newToolDecl "b") [newToolDecl "new_function"]).map
        (fun t => t.name)).Nodup ∧
     ((toggleTool "x" [newToolDecl "new_function"]).map (fun t => t.name)).Nodup ∧
     ((removeTool "x" [newToolDecl "new_function"]).map (fun t => t.name)).Nodup) :=
  ⟨by decide,
   toolNames_nodup_invariant [newToolDecl "new_function"] "x" "a" (newToolDecl "b")
     (by decide)⟩

/-! ## Helper lemmas for the system prompt -/

theorem intercalate_go_data (sep : String) :
    ∀ (l : List String) (acc : String),
      (String.intercalate.go acc sep l).data
        = acc.data ++ (l.map (fun x => sep.data ++ x.data)).flatten := by
  intro l
  induction l with
  | nil => intro acc; simp [String.intercalate.go]
  | cons a as ih =>
      intro acc
      simp only [String.intercalate.go, ih, List.map_cons, List.flatten_cons,
        String.data_append]
      simp [List.append_assoc]

theorem intercalate_data (sep b : String) (bs : List String) :
    (String.intercalate sep (b :: bs)).data
      = b.data ++ (bs.map (fun x => sep.data ++ x.data)).flatten := by
  simp only [String.intercalate, intercalate_go_data]

theorem flatten_contains_mem {α : Type} {x : List α} :
    ∀ {L : List (List α)}, x ∈ L → x <:+: L.flatten := by
  intro L
  induction L with
  | nil => intro h; exact absurd h (List.not_mem_nil x)
  | cons y ys ih =>
      intro h
      rcases List.mem_cons.mp h with rfl | h2
      · exact ⟨[], ys.flatten, by simp⟩
      · obtain ⟨s, t, hst⟩ := ih h2
        exact ⟨y ++ s, t, by rw [List.flatten_cons, ← hst]; simp [List.append_assoc]⟩

theorem intercalate_data_contains (sep a : String) :
    ∀ l : List String, a ∈ l → a.data <:+: (String.intercalate sep l).data := by
  intro l h
  cases l with
  | nil => exact absurd h (List.not_mem_nil a)
  | cons b bs =>
      rw [intercalate_data]
      rcases List.mem_cons.mp h with rfl | h2
      · exact ⟨[], (bs.map (fun x => sep.data ++ x.data)).flatten, by simp⟩
      · have h1 : sep.data ++ a.data ∈ bs.map (fun x => sep.data ++ x.data) :=
          List.mem_map_of_mem _ h2
        obtain ⟨s, t, hst⟩ := flatten_contains_mem h1
        exact ⟨b.data ++ s ++ sep.data, t, by rw [← hst]; simp [List.append_assoc]⟩

/-- C10: `getSystemPrompt` is the identity on the roles text when the
memories list is empty, and for a non-empty memories list it returns
exactly the roles text followed by the memory section template, whose
body joins every stored memory in order, each prefixed with a dash;
moreover each prefixed memory occurs verbatim inside the result. -/
theorem systemPrompt_shape (r : String) (ms : List String) (h : ms ≠ []) :
    getSystemPrompt r [] = r ∧
    getSystemPrompt r ms =
      r ++ (memoryHeader ++ String.intercalate "\n" (ms.map (fun m => "- " ++ m))
        ++ memoryFooter) ∧
    ∀ m ∈ ms, ("- " ++ m).data <:+: (getSystemPrompt r ms).data := by
  have hlen : ¬ ms.length = 0 := fun h0 => h (List.length_eq_zero.mp h0)
  refine ⟨rfl, ?_, ?_⟩
  · simp only [getSystemPrompt, if_neg hlen, memorySection]
  · intro m hm
    obtain ⟨s, t, hst⟩ := intercalate_data_contains "\n" ("- " ++ m)
      (ms.map (fun x => "- " ++ x)) (List.mem_map_of_mem _ hm)
    refine ⟨r.data ++ memoryHeader.data ++ s, t ++ memoryFooter.data, ?_⟩
    simp only [getSystemPrompt, if_neg hlen, memorySection, String.data_append]
    rw [← hst]
    simp [List.append_assoc]

/-- Witness for C10 with two stored memories. -/
theorem systemPrompt_shape_witness :
    (["alpha", "beta"] ≠ ([] : List String)) ∧
    (getSystemPrompt "role" [] = "role" ∧
     getSystemPrompt "role" ["alpha", "beta"] =
       "role" ++ (memoryHeader
         ++ String.intercalate "\n" (["alpha", "beta"].map (fun m => "- " ++ m))
         ++ memoryFooter) ∧
     ∀ m ∈ ["alpha", "beta"],
       ("- " ++ m).data <:+: (getSystemPrompt "role" ["alpha", "beta"]).data) :=
  ⟨by decide, systemPrompt_shape "role" ["alpha", "beta"] (by decide)⟩

end Kit
